import Mathlib

/-!
Shallow embedding of `count_lines.py`, a utility that walks the current
directory, counts lines in source files with a fixed set of extensions,
skips ignored directories, and prints per-file and per-directory line
totals sorted descending.

Modelling conventions:
* A filesystem entry seen by `Path('.').rglob('*')` is an `Entry`: its
  relative path as a list of components (pathlib normalises away `.`
  segments, so a file `b.ts` at the root has parts `["b.ts"]`), whether it
  is a regular file, and the decoded text content; `none` content models a
  failure to open or read the file (the `except:` branch of `count_lines`).
* Python text-mode reading uses universal newlines: `\n`, `\r` and `\r\n`
  each terminate a line, and iteration also yields a final segment that is
  not terminator-ended.  `pyLineCount` reproduces this on the decoded
  character list.
* `list.sort(key=lambda x: -x[1])` and `sorted(..., key=lambda x: -x[1])`
  are stable sorts, descending by the numeric second component.  A stable
  sort is extensionally determined by the key order and stability, so they
  are embedded as `List.insertionSort descR`, which is stable and
  computable.
* `defaultdict(int)` keyed by strings, with Python's insertion-ordered
  dicts, is embedded as an association list updated in place by `addTotal`.
-/

namespace CountLines

/-- EXTENSIONS in count_lines.py: the allowed code-file extensions. -/
def EXTENSIONS : List String :=
  [".svelte", ".ts", ".rs", ".js", ".css", ".html", ".json"]

/-- IGNORE_DIRS in count_lines.py: directory names that are skipped. -/
def IGNORE_DIRS : List String :=
  ["node_modules", "target", "dist", ".svelte-kit", ".git", "build"]

/-- A character that terminates a line in Python universal-newline mode. -/
def isTerm (c : Char) : Bool := c = '\n' || c = '\r'

/-- The number of lines Python file iteration yields on the given decoded
content: `sum(1 for _ in f)` in `count_lines`.  Each terminator (with
`\r\n` counting as one) ends a line, and a final non-empty segment with no
terminator is also yielded as a line. -/
def pyLineCount : List Char → Nat
  | [] => 0
  | '\r' :: '\n' :: rest => 1 + pyLineCount rest
  | c :: rest =>
      if isTerm c then 1 + pyLineCount rest
      else if rest.isEmpty then 1 else pyLineCount rest

/-- `count_lines(file_path)`: the Python line count of the content, or 0
when opening or reading fails (`content = none`). -/
def count_lines : Option (List Char) → Nat
  | none => 0
  | some cs => pyLineCount cs

/-- A filesystem entry produced by the recursive walk: relative path
components, whether it is a regular file, and its decoded content
(`none` models a read failure). -/
structure Entry where
  parts : List String
  isFile : Bool
  content : Option (List Char)

/-- Split a file name at its last dot: `some (before, after)` where the
name is `before ++ "." ++ after` and `after` has no dot. -/
def lastDotSplit : List Char → Option (List Char × List Char)
  | [] => none
  | c :: rest =>
    match lastDotSplit rest with
    | some (b, a) => some (c :: b, a)
    | none => if c = '.' then some ([], rest) else none

/-- `pathlib.PurePath.suffix` on a file name given as characters: the final
dot-suffix including the dot, and empty when the name has no dot, only a
leading dot, or only a trailing dot. -/
def pySuffixL (name : List Char) : List Char :=
  match lastDotSplit name with
  | some (b, a) => if !b.isEmpty && !a.isEmpty then '.' :: a else []
  | none => []

/-- `path.suffix` as a string. -/
def pySuffix (name : String) : String := (pySuffixL name.toList).asString

/-- `path.name`: the final path component. -/
def lastName (parts : List String) : String := (parts.getLast?).getD ("")

/-- The filter in main's walk loop (lines 25-28): regular file, allowed
extension, and no path component in IGNORE_DIRS
(`any(d in path.parts for d in IGNORE_DIRS)`). -/
def qualifies (e : Entry) : Bool :=
  e.isFile && EXTENSIONS.contains (pySuffix (lastName e.parts))
    && !(IGNORE_DIRS.any (fun d => e.parts.contains d))

/-- A FileRecord: the relative path (as components) and the line count. -/
abbrev FileRec := List String × Nat

/-- The walk loop of main: one FileRecord per qualifying entry, in walk
order. -/
def scan (fs : List Entry) : List FileRec :=
  fs.filterMap (fun e =>
    if qualifies e then some (e.parts, count_lines e.content) else none)

/-- The order used by both report sorts: descending by the numeric second
component (Python `key=lambda x: -x[1]`). -/
def descR {α : Type} (a b : α × Nat) : Prop := b.2 ≤ a.2

instance {α : Type} : DecidableRel (@descR α) := fun a b => Nat.decLe b.2 a.2

instance {α : Type} : IsTotal (α × Nat) descR := ⟨fun a b => Nat.le_total b.2 a.2⟩

instance {α : Type} : IsTrans (α × Nat) descR := ⟨fun _ _ _ h1 h2 => Nat.le_trans h2 h1⟩

/-- `files.sort(key=lambda x: -x[1])` (line 33): stable descending sort by
line count. -/
def sortFiles (files : List FileRec) : List FileRec :=
  List.insertionSort descR files

/-- `str(Path(path).parent)` (line 38): the immediate parent directory of a
record's path; a file directly under the scan root has parent `"."`. -/
def parentStr (parts : List String) : String :=
  if parts.length ≤ 1 then (".") else String.intercalate ("/") parts.dropLast

/-- One `dir_totals[dir_name] += lines` step on the insertion-ordered
association list: add `v` to the entry for `k`, appending a fresh entry at
the end when `k` is new. -/
def addTotal : List (String × Nat) → String → Nat → List (String × Nat)
  | [], k, v => [(k, v)]
  | (q, w) :: rest, k, v =>
    if q = k then (q, w + v) :: rest else (q, w) :: addTotal rest k v

/-- The dir_totals accumulation loop (lines 36-39). -/
def dirTotals (files : List FileRec) : List (String × Nat) :=
  files.foldl (fun m r => addTotal m (parentStr r.1) r.2) []

/-- `sorted(dir_totals.items(), key=lambda x: -x[1])` (line 50): the
per-directory report rows. -/
def dirRows (files : List FileRec) : List (String × Nat) :=
  List.insertionSort descR (dirTotals files)

/-- `sum(l for _, l in files)` (line 53): the printed grand total. -/
def grandTotal (files : List FileRec) : Nat := (files.map Prod.snd).sum

/-- The value recorded for key `k` in the mapping, 0 when absent. -/
def lookupTotal (m : List (String × Nat)) (k : String) : Nat :=
  match m.lookup k with
  | some v => v
  | none => 0

/-- The sum of all values of the mapping. -/
def sumValues (m : List (String × Nat)) : Nat := (m.map Prod.snd).sum

/-- The number of line terminators in the content (`\r\n` counts once):
the number of line-terminated segments. -/
def termCount : List Char → Nat
  | [] => 0
  | '\r' :: '\n' :: rest => 1 + termCount rest
  | c :: rest => if isTerm c then 1 + termCount rest else termCount rest

/-- Whether the content ends with a line terminator. -/
def endsWithTerm : List Char → Bool
  | [] => false
  | [c] => isTerm c
  | _ :: rest => endsWithTerm rest

example : pyLineCount (['a', '\n', 'b', '\n']) = 2 := by decide
example : pyLineCount (['a', '\n', 'b']) = 2 := by decide
example : pyLineCount (['a']) = 1 := by decide
example : pyLineCount ([]) = 0 := by decide
example : pyLineCount (['a', '\r', '\n', 'b']) = 2 := by decide
example : pyLineCount (['a', '\r', 'b']) = 2 := by decide
example : pySuffix ("app.test.ts") = (".ts") := by decide
example : pySuffix (".ts") = ("") := by decide
example : pySuffix ("a.") = ("") := by decide
example : pySuffix ("ats") = ("") := by decide
example : parentStr (["b.ts"]) = (".") := by decide
example : parentStr (["a", "b", "c.ts"]) = ("a/b") := by decide
example : sortFiles ([(["a"], 1), (["b"], 5), (["c"], 1)])
    = [(["b"], 5), (["a"], 1), (["c"], 1)] := by decide
example : dirTotals ([(["a", "x.ts"], 2), (["b.ts"], 3), (["a", "y.ts"], 4)])
    = [(("a"), 6), ((".") , 3)] := by decide
example :
    qualifies ⟨["src", "a.ts"], true, some (['x'])⟩ = true := by decide
example :
    qualifies ⟨["node_modules", "a.ts"], true, some (['x'])⟩ = false := by decide
example :
    qualifies ⟨["a.md"], true, some (['x'])⟩ = false := by decide

/-- The records whose parent directory is `k`. -/
def recsWithParent (files : List FileRec) (k : String) : List FileRec :=
  files.filter (fun r => parentStr r.1 == k)

/-- The accumulation step used in the dir_totals loop. -/
def dirStep (m : List (String × Nat)) (r : FileRec) : List (String × Nat) :=
  addTotal m (parentStr r.1) r.2

theorem dirTotals_eq_foldl (files : List FileRec) :
    dirTotals files = files.foldl dirStep [] := rfl

theorem lookupTotal_addTotal (m : List (String × Nat)) (k q : String) (v : Nat) :
    lookupTotal (addTotal m k v) q = lookupTotal m q + (if q = k then v else 0) := by
  induction m with
  | nil =>
    by_cases h : q = k
    · simp [addTotal, lookupTotal, List.lookup, h]
    · have hb : (q == k) = false := beq_eq_false_iff_ne.mpr h
      simp [addTotal, lookupTotal, List.lookup, h, hb]
  | cons p rest ih =>
    obtain ⟨a, b⟩ := p
    by_cases hak : a = k
    · subst hak
      by_cases hq : q = a
      · simp [addTotal, lookupTotal, List.lookup, hq, Nat.add_comm]
      · have hb : (q == a) = false := beq_eq_false_iff_ne.mpr hq
        simp [addTotal, lookupTotal, List.lookup, hq, hb]
    · by_cases hq : q = a
      · subst hq
        simp [addTotal, lookupTotal, List.lookup, hak, Ne.symm hak]
      · have hb : (q == a) = false := beq_eq_false_iff_ne.mpr hq
        simpa [addTotal, lookupTotal, List.lookup, hak, hq, hb] using ih

theorem sumValues_addTotal (m : List (String × Nat)) (k : String) (v : Nat) :
    sumValues (addTotal m k v) = sumValues m + v := by
  induction m with
  | nil => simp [addTotal, sumValues]
  | cons p rest ih =>
    obtain ⟨a, b⟩ := p
    by_cases hak : a = k <;>
      simp [addTotal, sumValues, hak] at ih ⊢ <;> omega

theorem mem_keys_addTotal (m : List (String × Nat)) (k q : String) (v : Nat) :
    q ∈ (addTotal m k v).map Prod.fst ↔ q ∈ m.map Prod.fst ∨ q = k := by
  induction m with
  | nil => simp [addTotal]
  | cons p rest ih =>
    obtain ⟨a, b⟩ := p
    by_cases hak : a = k
    · subst hak; simp [addTotal]
      intro h; exact Or.inl h
    · simp [addTotal, hak, ih, or_assoc]

theorem keys_nodup_addTotal (m : List (String × Nat)) (k : String) (v : Nat)
    (h : (m.map Prod.fst).Nodup) : ((addTotal m k v).map Prod.fst).Nodup := by
  induction m with
  | nil => simp [addTotal]
  | cons p rest ih =>
    obtain ⟨a, b⟩ := p
    simp only [List.map_cons, List.nodup_cons] at h
    by_cases hak : a = k
    · subst hak
      simpa [addTotal] using h
    · simp only [addTotal, hak, if_false, List.map_cons, List.nodup_cons]
      refine ⟨fun hmem => ?_, ih h.2⟩
      rcases (mem_keys_addTotal rest k a v).mp hmem with h1 | h2
      · exact h.1 h1
      · exact hak h2

theorem lookupTotal_foldl (files : List FileRec) (m : List (String × Nat)) (k : String) :
    lookupTotal (files.foldl dirStep m) k
      = lookupTotal m k + ((recsWithParent files k).map Prod.snd).sum := by
  induction files generalizing m with
  | nil => simp [recsWithParent]
  | cons r rest ih =>
    simp only [List.foldl_cons, ih, dirStep, lookupTotal_addTotal, recsWithParent]
    by_cases h : parentStr r.1 = k
    · simp only [List.filter_cons, h, beq_self_eq_true, if_true, List.map_cons,
        List.sum_cons]
      omega
    · simp [List.filter_cons, h, Ne.symm h]

theorem sumValues_foldl (files : List FileRec) (m : List (String × Nat)) :
    sumValues (files.foldl dirStep m) = sumValues m + grandTotal files := by
  induction files generalizing m with
  | nil => simp [grandTotal]
  | cons r rest ih =>
    simp only [List.foldl_cons, ih, dirStep, sumValues_addTotal, grandTotal,
      List.map_cons, List.sum_cons]
    omega

theorem mem_keys_foldl (files : List FileRec) (m : List (String × Nat)) (q : String) :
    q ∈ ((files.foldl dirStep m).map Prod.fst)
      ↔ q ∈ m.map Prod.fst ∨ ∃ r ∈ files, parentStr r.1 = q := by
  induction files generalizing m with
  | nil => simp
  | cons r rest ih =>
    simp only [List.foldl_cons, ih, dirStep, mem_keys_addTotal, List.mem_cons]
    constructor
    · rintro ((h1 | h2) | h3)
      · exact Or.inl h1
      · exact Or.inr ⟨r, Or.inl rfl, h2.symm⟩
      · rcases h3 with ⟨s, hs, hp⟩
        exact Or.inr ⟨s, Or.inr hs, hp⟩
    · rintro (h1 | ⟨s, hs | hs, hp⟩)
      · exact Or.inl (Or.inl h1)
      · subst hs; exact Or.inl (Or.inr hp.symm)
      · exact Or.inr ⟨s, hs, hp⟩

theorem keys_nodup_foldl (files : List FileRec) (m : List (String × Nat))
    (h : (m.map Prod.fst).Nodup) : ((files.foldl dirStep m).map Prod.fst).Nodup := by
  induction files generalizing m with
  | nil => exact h
  | cons r rest ih =>
    exact ih _ (keys_nodup_addTotal _ _ _ h)

theorem lookupTotal_dirTotals (files : List FileRec) (k : String) :
    lookupTotal (dirTotals files) k = ((recsWithParent files k).map Prod.snd).sum := by
  simpa [lookupTotal, List.lookup] using lookupTotal_foldl files [] k

theorem sumValues_dirTotals (files : List FileRec) :
    sumValues (dirTotals files) = grandTotal files := by
  simpa [sumValues] using sumValues_foldl files []

theorem mem_keys_dirTotals (files : List FileRec) (q : String) :
    q ∈ (dirTotals files).map Prod.fst ↔ ∃ r ∈ files, parentStr r.1 = q := by
  simpa using mem_keys_foldl files [] q

theorem keys_nodup_dirTotals (files : List FileRec) :
    ((dirTotals files).map Prod.fst).Nodup := by
  exact keys_nodup_foldl files [] (by simp)

theorem sorted_desc_insertionSort {α : Type} (l : List (α × Nat)) (i : Nat)
    (h : i + 1 < (List.insertionSort descR l).length) :
    ((List.insertionSort descR l).get ⟨i + 1, h⟩).2
      ≤ ((List.insertionSort descR l).get ⟨i, Nat.lt_of_succ_lt h⟩).2 := by
  have hs := List.sorted_insertionSort descR l
  exact hs.rel_get_of_lt (by simp [Fin.lt_def])

theorem stable_filter_insertionSort {α : Type} (l : List (α × Nat)) (n : Nat) :
    (List.insertionSort descR l).filter (fun r => r.2 == n)
      = l.filter (fun r => r.2 == n) := by
  have hmem : ∀ r ∈ l.filter (fun r : α × Nat => r.2 == n), r.2 = n := by
    intro r hr
    simpa using (List.mem_filter.mp hr).2
  have hpair : (l.filter (fun r : α × Nat => r.2 == n)).Pairwise descR := by
    apply List.pairwise_of_forall_mem_list
    intro a ha b hb
    simp [descR, hmem a ha, hmem b hb]
  have hsub : List.Sublist (l.filter (fun r : α × Nat => r.2 == n))
      (List.insertionSort descR l) :=
    List.sublist_insertionSort hpair (List.filter_sublist l)
  have hself : (l.filter (fun r : α × Nat => r.2 == n)).filter
      (fun r : α × Nat => r.2 == n) = l.filter (fun r : α × Nat => r.2 == n) :=
    List.filter_eq_self.mpr (fun a ha => (List.mem_filter.mp ha).2)
  have hsub2 := hsub.filter (fun r : α × Nat => r.2 == n)
  rw [hself] at hsub2
  have hperm := (List.perm_insertionSort descR l).filter (fun r : α × Nat => r.2 == n)
  exact (hsub2.eq_of_length hperm.length_eq.symm).symm

theorem scan_append (fs1 fs2 : List Entry) :
    scan (fs1 ++ fs2) = scan fs1 ++ scan fs2 := by
  simp [scan, List.filterMap_append]

theorem mem_scan (fs : List Entry) (ps : List String) (n : Nat) :
    (ps, n) ∈ scan fs
      ↔ ∃ e ∈ fs, qualifies e = true ∧ e.parts = ps ∧ count_lines e.content = n := by
  simp only [scan, List.mem_filterMap, Option.ite_none_right_eq_some,
    Option.some.injEq, Prod.mk.injEq]

theorem qualifies_iff (e : Entry) :
    qualifies e = true
      ↔ e.isFile = true ∧ pySuffix (lastName e.parts) ∈ EXTENSIONS
          ∧ ∀ p ∈ e.parts, p ∉ IGNORE_DIRS := by
  simp only [qualifies, Bool.and_eq_true, Bool.not_eq_true', List.any_eq_false,
    List.contains, List.elem_eq_mem, decide_eq_true_eq, decide_eq_false_iff_not,
    and_assoc]
  constructor
  · rintro ⟨h1, h2, h3⟩
    exact ⟨h1, h2, fun p hp hd => h3 p hd hp⟩
  · rintro ⟨h1, h2, h3⟩
    exact ⟨h1, h2, fun d hd hp => h3 d hp hd⟩

theorem endsWithTerm_cons_cons (c d : Char) (ds : List Char) :
    endsWithTerm (c :: d :: ds) = endsWithTerm (d :: ds) := rfl

theorem pyLineCount_eq_termCount (cs : List Char) :
    pyLineCount cs
      = termCount cs + (if cs.isEmpty || endsWithTerm cs then 0 else 1) := by
  induction cs using pyLineCount.induct with
  | case1 => rfl
  | case2 rest ih =>
    cases rest with
    | nil => rfl
    | cons d ds =>
      simp only [pyLineCount, termCount, endsWithTerm_cons_cons] at *
      simp only [List.isEmpty_cons, Bool.false_or] at *
      omega
  | case3 c rest hne ht ih =>
    cases rest with
    | nil =>
      simp [pyLineCount, termCount, ht, endsWithTerm, hne]
    | cons d ds =>
      simp only [pyLineCount, termCount, ht, if_true, endsWithTerm_cons_cons] at *
      simp only [List.isEmpty_cons, Bool.false_or] at *
      omega
  | case4 c rest hne ht hemp =>
    cases rest with
    | nil => simp [pyLineCount, termCount, endsWithTerm, ht]
    | cons d ds => simp at hemp
  | case5 c rest hne ht hemp ih =>
    cases rest with
    | nil => simp at hemp
    | cons d ds =>
      simp [pyLineCount, termCount, ht, endsWithTerm_cons_cons] at *
      omega

theorem lastDotSplit_of_not_mem (cs : List Char) (h : ('.') ∉ cs) :
    lastDotSplit cs = none := by
  induction cs with
  | nil => rfl
  | cons c rest ih =>
    simp only [List.mem_cons, not_or] at h
    simp [lastDotSplit, ih h.2, Ne.symm h.1]

theorem lastDotSplit_append (pre suf : List Char) (hsuf : ('.') ∉ suf) :
    lastDotSplit (pre ++ '.' :: suf) = some (pre, suf) := by
  induction pre with
  | nil =>
    simp [lastDotSplit, lastDotSplit_of_not_mem suf hsuf]
  | cons c rest ih =>
    simp [lastDotSplit, ih]

/-- C1: a filesystem entry produces a FileRecord (appears in the report) if
and only if it is a regular file, its extension (case-sensitive, with the
leading dot) is in the allow-set EXTENSIONS, and no component of its
relative path, at any depth, equals a member of IGNORE_DIRS. -/
theorem C1_record_iff_qualifies (fs : List Entry) (e : Entry) (he : e ∈ fs)
    (hnd : (fs.map Entry.parts).Nodup) :
    (∃ n, (e.parts, n) ∈ scan fs)
      ↔ e.isFile = true ∧ pySuffix (lastName e.parts) ∈ EXTENSIONS
          ∧ ∀ p ∈ e.parts, p ∉ IGNORE_DIRS := by
  rw [← qualifies_iff]
  constructor
  · rintro ⟨n, hn⟩
    rw [mem_scan] at hn
    obtain ⟨f, hf, hq, hps, hc⟩ := hn
    have hef : f = e := List.inj_on_of_nodup_map hnd hf he hps
    rwa [hef] at hq
  · intro hq
    exact ⟨count_lines e.content, (mem_scan fs e.parts _).mpr ⟨e, he, hq, rfl, rfl⟩⟩

/-- C1 witness: a single-entry filesystem holding a readable regular file
`a.ts` produces a record for it. -/
theorem C1_record_iff_qualifies_witness :
    ∃ n, (((["a.ts"] : List String), n) : FileRec)
      ∈ scan ([⟨["a.ts"], true, some (['x', '\n'])⟩]) :=
  (C1_record_iff_qualifies [⟨["a.ts"], true, some (['x', '\n'])⟩]
      ⟨["a.ts"], true, some (['x', '\n'])⟩
      (List.mem_cons_self _ _) (by simp)).mpr (by decide)

/-- C2: every FileRecord's lineCount is a non-negative integer, the sum of
all DirectoryTotal values equals the printed grand total, and the grand
total is the sum of all per-file lineCounts. -/
theorem C2_sum_invariant (records : List FileRec) :
    (∀ r ∈ records, 0 ≤ (r.2 : Int))
      ∧ sumValues (dirTotals records) = grandTotal records
      ∧ grandTotal records = (records.map Prod.snd).sum :=
  ⟨fun r _ => Int.natCast_nonneg r.2, sumValues_dirTotals records, rfl⟩

/-- C2 witness: the directory totals of a concrete two-record report sum to
its grand total. -/
theorem C2_sum_invariant_witness :
    sumValues (dirTotals ([((["a.ts"] : List String), 3), (["d", "b.ts"], 4)]))
      = grandTotal ([((["a.ts"] : List String), 3), (["d", "b.ts"], 4)]) :=
  (C2_sum_invariant ([((["a.ts"] : List String), 3), (["d", "b.ts"], 4)])).2.1

/-- C3 counterexample: on content "a" (one character, no line terminator)
count_lines returns 1, but the number of line-terminated segments is 0, so
countLines does not return the number of line-terminated segments. -/
theorem C3_counterexample :
    count_lines (some (['a'])) = 1 ∧ termCount (['a']) = 0 := by decide

/-- C3 (amended): for every readable regular file, countLines returns the
number of line segments Python iteration yields: the number of
line-terminated segments, plus one more when the content is nonempty and
does not end with a line terminator (the trailing unterminated segment IS
counted). -/
theorem C3_count_lines_segments (cs : List Char) :
    count_lines (some cs)
      = termCount cs + (if cs = [] ∨ endsWithTerm cs = true then 0 else 1) := by
  have h := pyLineCount_eq_termCount cs
  by_cases h1 : cs = []
  · subst h1; rfl
  · by_cases h2 : endsWithTerm cs = true
    · simpa [count_lines, h1, h2] using h
    · simpa [count_lines, h1, h2] using h

/-- C4: countLines never propagates a failure: when open or read fails it
returns 0, the file is still recorded with count 0, and the scan continues
past it (entries before and after are processed unchanged). -/
theorem C4_read_failure_swallowed (pre post : List Entry) (e : Entry)
    (hq : qualifies e = true) (hfail : e.content = none) :
    count_lines e.content = 0
      ∧ scan (pre ++ e :: post) = scan pre ++ ((e.parts, 0) : FileRec) :: scan post := by
  refine ⟨by rw [hfail]; rfl, ?_⟩
  simp [scan, List.filterMap_append, List.filterMap_cons, hq, hfail, count_lines]

/-- C4 witness: an unreadable `a.ts` is recorded with count 0 and a later
entry is still scanned. -/
theorem C4_read_failure_swallowed_witness :
    count_lines (Entry.content ⟨["a.ts"], true, none⟩) = 0
      ∧ scan ([] ++ (⟨["a.ts"], true, none⟩ : Entry) :: [⟨["b.ts"], true, some (['x'])⟩])
          = scan [] ++ (((["a.ts"] : List String), 0) : FileRec)
              :: scan [⟨["b.ts"], true, some (['x'])⟩] :=
  C4_read_failure_swallowed [] [⟨["b.ts"], true, some (['x'])⟩]
    ⟨["a.ts"], true, none⟩ (by decide) rfl

/-- C5: in the report, any two consecutive per-file rows have
non-increasing counts, the sort is stable (records with equal counts keep
their prior relative order), and the per-directory rows are likewise
sorted descending by total. -/
theorem C5_report_sorted_stable (files : List FileRec) :
    (∀ i : Nat, ∀ h : i + 1 < (sortFiles files).length,
        ((sortFiles files).get ⟨i + 1, h⟩).2
          ≤ ((sortFiles files).get ⟨i, Nat.lt_of_succ_lt h⟩).2)
      ∧ (∀ n : Nat, (sortFiles files).filter (fun r => r.2 == n)
            = files.filter (fun r => r.2 == n))
      ∧ (∀ i : Nat, ∀ h : i + 1 < (dirRows files).length,
          ((dirRows files).get ⟨i + 1, h⟩).2
            ≤ ((dirRows files).get ⟨i, Nat.lt_of_succ_lt h⟩).2) :=
  ⟨fun i h => sorted_desc_insertionSort files i h,
    fun n => stable_filter_insertionSort files n,
    fun i h => sorted_desc_insertionSort (dirTotals files) i h⟩

/-- C5 witness: on a concrete two-record list the sorted report's second
row count is at most its first row count. -/
theorem C5_report_sorted_stable_witness :
    ((sortFiles ([((["a"] : List String), 1), (["b"], 5)])).get ⟨1, by decide⟩).2
      ≤ ((sortFiles ([((["a"] : List String), 1), (["b"], 5)])).get ⟨0, by decide⟩).2 :=
  (C5_report_sorted_stable ([((["a"] : List String), 1), (["b"], 5)])).1 0 (by decide)

/-- C6: every FileRecord whose file sits directly under the scan root (its
relative path is a bare file name) has parent-directory key ".", and the
directory totals assign all such records' lineCounts to that key. -/
theorem C6_root_parent_dot (records : List FileRec)
    (h : ∀ r ∈ records, r.1.length = 1) :
    (∀ r ∈ records, parentStr r.1 = ("."))
      ∧ lookupTotal (dirTotals records) (".") = grandTotal records := by
  have hp : ∀ r ∈ records, parentStr r.1 = (".") := by
    intro r hr
    simp [parentStr, h r hr]
  refine ⟨hp, ?_⟩
  rw [lookupTotal_dirTotals]
  have hall : recsWithParent records (".") = records := by
    apply List.filter_eq_self.mpr
    intro r hr
    simp [hp r hr]
  rw [hall]
  rfl

/-- C6 witness: a single root-level record's count lands on key ".". -/
theorem C6_root_parent_dot_witness :
    lookupTotal (dirTotals ([((["a.ts"] : List String), 2)])) (".")
      = grandTotal ([((["a.ts"] : List String), 2)]) :=
  (C6_root_parent_dot ([((["a.ts"] : List String), 2)]) (by decide)).2

/-- C7: the directory-totals mapping is order-insensitive: permuting the
record list leaves every key's total unchanged, and the keys are unique. -/
theorem C7_perm_invariant (l m : List FileRec) (hp : l.Perm m) :
    ((dirTotals l).map Prod.fst).Nodup
      ∧ ∀ k, lookupTotal (dirTotals l) k = lookupTotal (dirTotals m) k := by
  refine ⟨keys_nodup_dirTotals l, fun k => ?_⟩
  rw [lookupTotal_dirTotals, lookupTotal_dirTotals]
  exact ((hp.filter _).map Prod.snd).sum_eq

/-- C7 witness: swapping two concrete records leaves the total for "."
unchanged. -/
theorem C7_perm_invariant_witness :
    lookupTotal (dirTotals ([((["a.ts"] : List String), 1), (["b.ts"], 2)])) (".")
      = lookupTotal (dirTotals ([((["b.ts"] : List String), 2), (["a.ts"], 1)])) (".") :=
  (C7_perm_invariant ([((["a.ts"] : List String), 1), (["b.ts"], 2)])
    ([((["b.ts"] : List String), 2), (["a.ts"], 1)]) (by decide)).2 (".")

/-- C8: when no entry qualifies, no error is raised: the scan result, the
per-file rows and the per-directory rows are all empty and the printed
grand total is 0. -/
theorem C8_empty_report (fs : List Entry) (h : ∀ e ∈ fs, qualifies e = false) :
    scan fs = [] ∧ sortFiles (scan fs) = [] ∧ dirRows (scan fs) = []
      ∧ grandTotal (scan fs) = 0 := by
  have hs : scan fs = [] := by
    rw [scan, List.filterMap_eq_nil_iff]
    intro e he
    simp [h e he]
  refine ⟨hs, ?_, ?_, ?_⟩ <;> rw [hs] <;> rfl

/-- C8 witness: a filesystem holding only a `.md` file yields the empty
report with grand total 0. -/
theorem C8_empty_report_witness :
    scan ([(⟨["a.md"], true, some (['x'])⟩ : Entry)]) = []
      ∧ sortFiles (scan ([(⟨["a.md"], true, some (['x'])⟩ : Entry)])) = []
      ∧ dirRows (scan ([(⟨["a.md"], true, some (['x'])⟩ : Entry)])) = []
      ∧ grandTotal (scan ([(⟨["a.md"], true, some (['x'])⟩ : Entry)])) = 0 :=
  C8_empty_report [⟨["a.md"], true, some (['x'])⟩] (by decide)

/-- C9: the extension used for filtering is only the final dot-suffix of
the file name: a name `pre ++ "." ++ suf` with `pre` and `suf` nonempty and
`suf` dot-free has suffix `"." ++ suf`; `app.test.ts` has suffix `.ts`
(allowed); `app.ts.bak` has suffix `.bak` (not allowed); a dot-free name or
a name with only a leading dot has empty suffix, which never qualifies. -/
theorem C9_suffix_is_final_dot :
    (∀ pre suf : List Char, pre ≠ [] → suf ≠ [] → ('.') ∉ suf →
        pySuffixL (pre ++ '.' :: suf) = '.' :: suf)
      ∧ pySuffix ("app.test.ts") = (".ts") ∧ (".ts") ∈ EXTENSIONS
      ∧ pySuffix ("app.ts.bak") = (".bak") ∧ (".bak") ∉ EXTENSIONS
      ∧ (∀ cs : List Char, ('.') ∉ cs → pySuffixL cs = [])
      ∧ (∀ suf : List Char, ('.') ∉ suf → pySuffixL ('.' :: suf) = [])
      ∧ ("") ∉ EXTENSIONS := by
  refine ⟨?_, by decide, by decide, by decide, by decide, ?_, ?_, by decide⟩
  · intro pre suf h1 h2 h3
    simp [pySuffixL, lastDotSplit_append pre suf h3, h1, h2]
  · intro cs h
    simp [pySuffixL, lastDotSplit_of_not_mem cs h]
  · intro suf h
    have : lastDotSplit ('.' :: suf) = some ([], suf) := by
      simpa using lastDotSplit_append [] suf h
    simp [pySuffixL, this]

/-- C9 witness: the general final-dot-suffix rule evaluated at the name
"ab.ts". -/
theorem C9_suffix_is_final_dot_witness :
    pySuffixL (['a', 'b'] ++ '.' :: ['t', 's']) = '.' :: ['t', 's'] :=
  C9_suffix_is_final_dot.1 (['a', 'b']) (['t', 's'])
    (by decide) (by decide) (by decide)

/-- C10: every key of the directory-totals mapping, hence every printed
directory row, is the parent directory of at least one FileRecord in the
report. -/
theorem C10_dir_rows_have_files (records : List FileRec) (k : String)
    (hk : k ∈ (dirRows records).map Prod.fst) :
    ∃ r ∈ records, parentStr r.1 = k := by
  have hperm : (dirRows records).Perm (dirTotals records) :=
    List.perm_insertionSort descR (dirTotals records)
  have hmem : k ∈ (dirTotals records).map Prod.fst :=
    ((hperm.map Prod.fst).mem_iff).mp hk
  exact (mem_keys_dirTotals records k).mp hmem

/-- C10 witness: the sole directory row "." of a concrete one-record report
is the parent of that record. -/
theorem C10_dir_rows_have_files_witness :
    ∃ r ∈ ([((["a.ts"] : List String), 2)] : List FileRec), parentStr r.1 = (".") :=
  C10_dir_rows_have_files ([((["a.ts"] : List String), 2)]) (".") (by decide)

end CountLines
